import Mathlib

/-!
Verification of `easybuild/tools/multidiff.py`.

The definitions below are a shallow embedding of the module: the constants,
the `MultiDiff` class (its `diff_info` dict-of-dicts is flattened to an
insertion-ordered association list from line number to the list of
`(diff_line, meta, squigly_line)` tuples; `get_line` recovers the per-key
partition by filtering on the first character, which is exactly the key the
source stores each tuple under), and the `multidiff` driver loop that turns
one differ stream per file into registered records.  The external line
differ, file reading and terminal-size detection are out of scope; differ
streams and the terminal width are inputs here.
-/

namespace Multidiff

def SEP_WIDTH : Nat := 5

def PURPLE : String := "\x1B[0;35m"

def GREEN_BACK : String := "\x1B[0;42m"

def RED_BACK : String := "\x1B[0;41m"

def END_COLOR : String := "\x1B[0m"

def HAT : Char := '^'

def MINUS : Char := '-'

def PLUS : Char := '+'

def SPACE : Char := ' '

def QUESTIONMARK : Char := '?'

def END_LONG_LINE : String := "..."

def MAX_DIFF_GROUPS : Nat := 3

/-- Python `s.startswith(c)` for a single-character prefix `c`:
the string is nonempty and its first character is `c`. -/
def startsWithChar (s : String) (c : Char) : Bool :=
  decide (s.toList.head? = some c)

/-- Python `s.rstrip()`: drop trailing whitespace characters. -/
def rstrip (s : String) : String :=
  ⟨(s.toList.reverse.dropWhile Char.isWhitespace).reverse⟩

/-- Ordered-dictionary lookup on an association list. -/
def lookup? {α β : Type} [DecidableEq α] : List (α × β) → α → Option β
  | [], _ => none
  | (k', v) :: rest, k => if k' = k then some v else lookup? rest k

/-- Python `d.setdefault(k, []).append(v)`: append `v` to the list stored
under `k`, creating the entry (at the end, as dict insertion order does)
if the key is absent. -/
def appendAt {α β : Type} [DecidableEq α] : List (α × List β) → α → β → List (α × List β)
  | [], k, v => [(k, [v])]
  | (k', vs) :: rest, k, v =>
    if k' = k then (k', vs ++ [v]) :: rest else (k', vs) :: appendAt rest k v

/-- Python `d[k] = v`: overwrite the value in place if the key is present,
otherwise append the new entry at the end. -/
def setAt {α β : Type} [DecidableEq α] : List (α × β) → α → β → List (α × β)
  | [], k, v => [(k, v)]
  | (k', v') :: rest, k, v =>
    if k' = k then (k', v) :: rest else (k', v') :: setAt rest k v

/-- The per-file state of the normalization loop in `multidiff`:
`local_diff` maps a line number to the `(line, filename)` pairs registered
there, `squigly_dict` maps a diff line (or `None`, when a squigly line
arrives before any `+`/`-` line) to its squigly line, `last_added` is the
most recent `+`/`-` line, `offset` the running correction. -/
structure FileDiff where
  local_diff : List (Int × List (String × String))
  squigly_dict : List (Option String × String)
  last_added : Option String
  offset : Int
deriving DecidableEq

def initFileDiff : FileDiff := ⟨[], [], none, 1⟩

/-- One iteration of the `for (i, line) in enumerate(diff)` loop in
`multidiff`: squigly lines attach to `last_added` and decrement `offset`;
`+` lines register at `i + offset`; `-` lines register at `i + offset` and
decrement `offset`; every other line (context lines included) is skipped. -/
def normStep (filename : String) (st : FileDiff) (i : Int) (line : String) : FileDiff :=
  if startsWithChar line QUESTIONMARK then
    { st with squigly_dict := setAt st.squigly_dict st.last_added line,
              offset := st.offset - 1 }
  else if startsWithChar line PLUS then
    { st with local_diff := appendAt st.local_diff (i + st.offset) (line, filename),
              last_added := some line }
  else if startsWithChar line MINUS then
    { st with local_diff := appendAt st.local_diff (i + st.offset) (line, filename),
              last_added := some line,
              offset := st.offset - 1 }
  else st

def normLoop (filename : String) (i : Int) (st : FileDiff) : List String → FileDiff
  | [] => st
  | line :: rest => normLoop filename (i + 1) (normStep filename st i line) rest

/-- The per-file normalization pass of `multidiff`, run on the differ
stream produced for one comparison file. -/
def normalizeFile (filename : String) (diff : List String) : FileDiff :=
  normLoop filename 0 initFileDiff diff

/-- One registered record: `(diff_line, meta, squigly_line)`. -/
structure DiffEntry where
  diff_line : String
  meta : String
  squigly : String
deriving DecidableEq

/-- The `MultiDiff` object.  `diff_info` flattens the source's
dict-of-dicts: the tuples stored under line number and key are kept in one
insertion-ordered list per line number, the key being recoverable as the
first character of `diff_line`. -/
structure MultiDiff where
  base_fn : String
  base_lines : List String
  files : List String
  colored : Bool
  diff_info : List (Int × List DiffEntry)
deriving DecidableEq

/-- `MultiDiff.parse_line`.  The source computes `key = diff_line[0]` and
calls `_log.error` when the key is neither `-` nor `+`.
Modelled from the spec: `_log.error` (EasyBuild's logger, whose class lives
in `easybuild.tools.build_log`, not part of the sources under
verification) surfaces a normalization fault to the caller as a hard
failure, so this branch — and Python's `IndexError` on an empty
`diff_line` — is an `Except.error`. -/
def parse_line (md : MultiDiff) (line_no : Int) (diff_line : String)
    (meta : String) (squigly_line : String) : Except String MultiDiff :=
  match diff_line.toList with
  | [] => Except.error "diff line is empty"
  | key :: _ =>
    if key = MINUS ∨ key = PLUS then
      Except.ok { md with
        diff_info := appendAt md.diff_info line_no ⟨diff_line, meta, squigly_line⟩ }
    else
      Except.error ("diff line starts with unexpected character: " ++ diff_line)

/-- `MultiDiff.color_line`. -/
def color_line (md : MultiDiff) (line : String) (color : String) : String :=
  if md.colored then color ++ line ++ END_COLOR else line

/-- The character-wise core of `MultiDiff.merge_squigly`: walk the shorter
line, overwriting a base character by the other line's character exactly
when the base character is a hat or a blank and the two differ. -/
def mergeChars : List Char → List Char → List Char
  | base, [] => base
  | [], _ => []
  | b :: bs, c :: cs =>
    (if (b = HAT ∨ b = SPACE) ∧ b ≠ c then c else b) :: mergeChars bs cs

/-- `MultiDiff.merge_squigly`: the longer line is the base (the second
argument on equal lengths, as `len(sq1) > len(sq2)` is then false), and the
shorter line's characters are merged into it. -/
def merge_squigly (squigly1 squigly2 : String) : String :=
  if squigly2.length < squigly1.length then ⟨mergeChars squigly1.toList squigly2.toList⟩
  else ⟨mergeChars squigly2.toList squigly1.toList⟩

/-- Python `chars.insert(n, s)`: list insertion, clamped to the end when
`n` exceeds the length. -/
def insertAt (l : List String) (n : Nat) (s : String) : List String :=
  l.take n ++ s :: l.drop n

/-- The `color_map` dict in `MultiDiff.colorize`, as a partial lookup. -/
def color_map (line : String) (c : Char) : Option String :=
  if c = HAT then some (if startsWithChar line PLUS then GREEN_BACK else RED_BACK)
  else if c = MINUS then some RED_BACK
  else if c = PLUS then some GREEN_BACK
  else none

/-- The `for i, squigly_char in enumerate(squigly)` loop of
`MultiDiff.colorize`: whenever the marker changes from the running flag,
insert a color reset (and the marker's color, for hat/minus/plus) before
the character at position `i`, tracking how many strings were inserted. -/
def colorizeLoop (line : String) : List Char → Nat → Char → Nat → List String →
    List String × Nat
  | [], _, _, offset, chars => (chars, offset)
  | c :: rest, i, flag, offset, chars =>
    if c ≠ flag then
      let chars1 := insertAt chars (i + offset) END_COLOR
      match color_map line c with
      | some col =>
        colorizeLoop line rest (i + 1) c (offset + 2) (insertAt chars1 (i + offset + 1) col)
      | none => colorizeLoop line rest (i + 1) c (offset + 1) chars1
    else colorizeLoop line rest (i + 1) flag offset chars

/-- `MultiDiff.colorize`.  (In the no-squigly branch the source indexes
`line[0]`, which presupposes a nonempty line; the empty case contributes
no color there.) -/
def colorize (md : MultiDiff) (line squigly : String) : String :=
  if md.colored = false then line
  else if squigly ≠ "" then
    let start := line.toList.map (fun ch => String.mk [ch])
    let p := colorizeLoop line squigly.toList 0 SPACE 0 start
    String.join (insertAt p.1 (squigly.length + p.2) END_COLOR)
  else
    let first :=
      match line.toList with
      | [] => ""
      | c :: _ => (color_map line c).getD ""
    first ++ line ++ END_COLOR

/-- The accumulator of the per-key loop in `MultiDiff.get_line`:
`lines` is the `lines` set (insertion-ordered, deduplicated), `changes`
the `changes_dict` (a set of metas per diff line, insertion-ordered and
deduplicated), `squig` the `squigly_dict` of merged squigly lines. -/
structure GroupAcc where
  lines : List String
  changes : List (String × List String)
  squig : List (String × String)
deriving DecidableEq

def initGroupAcc : GroupAcc := ⟨[], [], []⟩

/-- Python `set.add`: append unless already present. -/
def insertMeta (l : List String) (m : String) : List String :=
  if m ∈ l then l else l ++ [m]

/-- `changes_dict.setdefault(diff_line, set()).add(meta)`. -/
def addChange : List (String × List String) → String → String → List (String × List String)
  | [], k, meta => [(k, [meta])]
  | (k', vs) :: rest, k, meta =>
    if k' = k then (k', insertMeta vs meta) :: rest
    else (k', vs) :: addChange rest k meta

/-- One iteration of `for (diff_line, meta, squigly_line) in diff_dict[key]`
in `MultiDiff.get_line`: merge the squigly line with any previous one for
the same diff line, record the diff line, record the meta. -/
def groupStep (acc : GroupAcc) (e : DiffEntry) : GroupAcc :=
  let squig :=
    if e.squigly ≠ "" then
      let s :=
        match lookup? acc.squig e.diff_line with
        | some old => merge_squigly e.squigly old
        | none => e.squigly
      setAt acc.squig e.diff_line s
    else acc.squig
  let lines := if e.diff_line ∈ acc.lines then acc.lines else acc.lines ++ [e.diff_line]
  ⟨lines, addChange acc.changes e.diff_line e.meta, squig⟩

/-- The file-count of one diff line: the size of its set of metas. -/
def countOf (changes : List (String × List String)) (l : String) : Nat :=
  ((lookup? changes l).getD []).length

/-- `sorted(lines, key=lambda line: len(changes_dict[line]))[:MAX_DIFF_GROUPS]`:
stable sort ascending by file-count, then keep the first `MAX_DIFF_GROUPS`.
(Python's `sorted` is a stable ascending sort by the key; insertion sort is
also stable, and any two stable sorts under the same key agree.) -/
def selectVariants (changes : List (String × List String)) (lines : List String) :
    List String :=
  (lines.insertionSort (fun a b => countOf changes a ≤ countOf changes b)).take
    MAX_DIFF_GROUPS

/-- Floor base-10 logarithm, computed with explicit fuel (the first
argument; any fuel at least the number is enough). -/
def log10fuel : Nat → Nat → Nat
  | 0, _ => 0
  | fuel + 1, n => if n < 10 then 0 else log10fuel fuel (n / 10) + 1

/-- Python `int(math.log10(n))` for `n ≥ 1` (for `n ≤ 0` the source would
raise a math domain error; see the reachability analysis). -/
def intLog10 (n : Int) : Nat := log10fuel n.toNat n.toNat

/-- Python `sep.join(parts)`. -/
def joinSep (sep : String) : List String → String
  | [] => ""
  | [s] => s
  | s :: rest => s ++ sep ++ joinSep sep rest

/-- The rendering of one surviving diff-line group in `MultiDiff.get_line`:
the numbered, colorized line with its `(files/total)` annotation, the
file list when the group's files are a strict subset of all files, and —
without color mode, when a squigly line is present — the squigly line
prepended with `2 + int(math.log10(line_no))` spaces. -/
def renderGroup (md : MultiDiff) (line_no : Int) (diff_line : String)
    (squigly_line : String) (files : List String) : List String :=
  let num_files := md.files.length
  let parts := [toString line_no ++ " " ++ colorize md diff_line squigly_line,
                "(" ++ toString files.length ++ "/" ++ toString num_files ++ ")"]
  let parts := if files.length ≠ num_files then parts ++ [joinSep ", " files] else parts
  let out := [joinSep " " parts]
  if md.colored = false ∧ squigly_line ≠ "" then
    out ++ [String.mk (List.replicate (2 + intLog10 line_no) SPACE) ++ squigly_line]
  else out

/-- The body of `MultiDiff.get_line` for one key (`-` or `+`): the tuples
stored under that key, grouped, sorted, capped and rendered. -/
def processKey (md : MultiDiff) (line_no : Int) (diff_dict : List DiffEntry)
    (key : Char) : List String :=
  let entries := diff_dict.filter (fun e => startsWithChar e.diff_line key)
  let acc := entries.foldl groupStep initGroupAcc
  let lines := selectVariants acc.changes acc.lines
  lines.foldl
    (fun out dl =>
      out ++ renderGroup md line_no dl ((lookup? acc.squig dl).getD "")
        ((lookup? acc.changes dl).getD []))
    []

/-- `MultiDiff.get_line` before the separator step: the `-` key's output
followed by the `+` key's output. -/
def getLineBody (md : MultiDiff) (line_no : Int) : List String :=
  let diff_dict := (lookup? md.diff_info line_no).getD []
  processKey md line_no diff_dict MINUS ++ processKey md line_no diff_dict PLUS

/-- `MultiDiff.get_line`: the body, plus the separator when this line has
records and the next one has none. -/
def get_line (md : MultiDiff) (line_no : Int) : List String :=
  let output := getLineBody md line_no
  if (lookup? md.diff_info line_no).getD [] ≠ [] ∧
      (lookup? md.diff_info (line_no + 1)).getD [] = [] then
    output ++ [" ", String.mk (List.replicate SEP_WIDTH MINUS), " "]
  else output

/-- The `for line_no in local_diff: for (line, filename) in ...` iteration
order of `multidiff`, flattened. -/
def flattenLocalDiff (fd : FileDiff) : List (Int × String × String) :=
  (fd.local_diff.map (fun p => p.2.map (fun q => (p.1, q.1, q.2)))).flatten

/-- A sequential loop whose body may fail: the first failure aborts the
whole loop, as an uncaught exception aborts a Python `for` loop. -/
def foldE {α : Type} (f : MultiDiff → α → Except String MultiDiff) :
    MultiDiff → List α → Except String MultiDiff
  | md, [] => Except.ok md
  | md, x :: xs =>
    match f md x with
    | Except.error e => Except.error e
    | Except.ok md' => foldE f md' xs

/-- The second half of `multidiff`'s per-file loop: register every line of
the per-file `local_diff` via `parse_line`, right-stripping the line and
its squigly line. -/
def feedFile (md : MultiDiff) (fd : FileDiff) : Except String MultiDiff :=
  foldE
    (fun m t =>
      parse_line m t.1 (rstrip t.2.1) t.2.2
        (rstrip ((lookup? fd.squigly_dict (some t.2.1)).getD "")))
    md (flattenLocalDiff fd)

/-- The `multidiff` driver up to the final `str(mdiff)`: construct the
`MultiDiff` and feed it each comparison file's normalized differ stream.
The external differ's output is an input here (one tagged-line stream per
file). -/
def multidiffRun (base_fn : String) (base_lines : List String)
    (fileStreams : List (String × List String)) (colored : Bool) :
    Except String MultiDiff :=
  let md0 : MultiDiff := ⟨base_fn, base_lines, fileStreams.map (fun fs => fs.1), colored, []⟩
  foldE (fun md fs => feedFile md (normalizeFile fs.1 fs.2)) md0 fileStreams

/-- Python `text[:n]` for an `int` bound `n` (negative bounds count from
the end, clamped at zero). -/
def pySliceTo (s : String) (n : Int) : String :=
  ⟨s.toList.take (if n < 0 then ((s.toList.length : Int) + n).toNat else n.toNat)⟩

/-- The `limit` closure in `MultiDiff.__str__`: cut an over-long line to
`length - len(END_LONG_LINE)` characters, append a color reset when in
color mode, then append the truncation marker. -/
def limit (colored : Bool) (text : String) (length : Int) : String :=
  if (text.length : Int) > length then
    let res := pySliceTo text (length - (END_LONG_LINE.length : Int))
    let res := if colored then res ++ END_COLOR else res
    res ++ END_LONG_LINE
  else text

/-! ## Lemmas about `merge_squigly` -/

theorem mergeChars_length (b o : List Char) : (mergeChars b o).length = b.length := by
  induction b generalizing o with
  | nil => cases o <;> rfl
  | cons x xs ih =>
    cases o with
    | nil => rfl
    | cons y ys => simp [mergeChars, ih]

theorem mergeChars_self (l : List Char) : mergeChars l l = l := by
  induction l with
  | nil => rfl
  | cons x xs ih => simp [mergeChars, ih]

theorem mergeChars_getD_lt (b o : List Char) (i : Nat) (hi : i < o.length)
    (hle : o.length ≤ b.length) :
    (mergeChars b o).getD i SPACE =
      if (b.getD i SPACE = HAT ∨ b.getD i SPACE = SPACE) ∧ b.getD i SPACE ≠ o.getD i SPACE
      then o.getD i SPACE else b.getD i SPACE := by
  induction b generalizing o i with
  | nil =>
    cases o with
    | nil => simp at hi
    | cons y ys => simp at hle
  | cons x xs ih =>
    cases o with
    | nil => simp at hi
    | cons y ys =>
      cases i with
      | zero => simp [mergeChars]
      | succ n =>
        simp only [mergeChars, List.getD_cons_succ]
        exact ih ys n (by simpa using hi) (by simpa using hle)

theorem mergeChars_getD_ge (b o : List Char) (i : Nat) (hi : o.length ≤ i) :
    (mergeChars b o).getD i SPACE = b.getD i SPACE := by
  induction b generalizing o i with
  | nil => cases o <;> rfl
  | cons x xs ih =>
    cases o with
    | nil => rfl
    | cons y ys =>
      cases i with
      | zero => simp at hi
      | succ n =>
        simp only [mergeChars, List.getD_cons_succ]
        exact ih ys n (by simpa using hi)

theorem merge_squigly_toList (s1 s2 : String) :
    (merge_squigly s1 s2).toList =
      if s2.length < s1.length then mergeChars s1.toList s2.toList
      else mergeChars s2.toList s1.toList := by
  unfold merge_squigly
  split <;> rfl

theorem merge_squigly_self (s : String) : merge_squigly s s = s := by
  unfold merge_squigly
  rw [if_neg (lt_irrefl _), mergeChars_self]
  rfl

theorem string_length_toList (s : String) : s.length = s.toList.length := rfl

/-- C5: `merge_squigly` takes the longer string as the base (the second on
equal lengths); its result has the longer input's length, merging a string
with itself is the identity, and at every column of the shorter string the
base's character is overwritten by the other's exactly when it is a hat or
a blank and the two differ, all other columns keeping the base's
character. -/
theorem merge_squigly_spec (s1 s2 : String) :
    (merge_squigly s1 s2).length = max s1.length s2.length
    ∧ merge_squigly s1 s1 = s1
    ∧ (∀ i : Nat,
        i < (if s2.length < s1.length then s2.toList else s1.toList).length →
        (merge_squigly s1 s2).toList.getD i SPACE =
          (if ((if s2.length < s1.length then s1.toList else s2.toList).getD i SPACE = HAT
                ∨ (if s2.length < s1.length then s1.toList else s2.toList).getD i SPACE = SPACE)
              ∧ (if s2.length < s1.length then s1.toList else s2.toList).getD i SPACE
                  ≠ (if s2.length < s1.length then s2.toList else s1.toList).getD i SPACE
           then (if s2.length < s1.length then s2.toList else s1.toList).getD i SPACE
           else (if s2.length < s1.length then s1.toList else s2.toList).getD i SPACE))
    ∧ (∀ i : Nat,
        (if s2.length < s1.length then s2.toList else s1.toList).length ≤ i →
        (merge_squigly s1 s2).toList.getD i SPACE =
          (if s2.length < s1.length then s1.toList else s2.toList).getD i SPACE) := by
  refine ⟨?_, ?_, ?_, ?_⟩
  · rw [string_length_toList (merge_squigly s1 s2), merge_squigly_toList]
    rw [string_length_toList s1, string_length_toList s2]
    split <;> rw [mergeChars_length] <;> omega
  · exact merge_squigly_self s1
  · intro i hi
    rw [merge_squigly_toList]
    by_cases h : s2.length < s1.length
    · simp only [if_pos h] at hi ⊢
      exact mergeChars_getD_lt _ _ _ hi
        (by rw [string_length_toList, string_length_toList] at h; omega)
    · simp only [if_neg h] at hi ⊢
      exact mergeChars_getD_lt _ _ _ hi
        (by rw [string_length_toList, string_length_toList] at h; omega)
  · intro i hi
    rw [merge_squigly_toList]
    by_cases h : s2.length < s1.length
    · simp only [if_pos h] at hi ⊢
      exact mergeChars_getD_ge _ _ _ hi
    · simp only [if_neg h] at hi ⊢
      exact mergeChars_getD_ge _ _ _ hi

/-- Witness for C5 at `s1 = "+"`, `s2 = "^ "` (base `"^ "`, other `"+"`),
column 0 in range and column 1 out of range. -/
theorem merge_squigly_spec_witness :
    (merge_squigly "+" "^ ").length = max ("+" : String).length ("^ " : String).length
    ∧ merge_squigly "+" "+" = "+"
    ∧ (merge_squigly "+" "^ ").toList.getD 0 SPACE = '+'
    ∧ (merge_squigly "+" "^ ").toList.getD 1 SPACE = ' ' := by
  have h := merge_squigly_spec "+" "^ "
  refine ⟨h.1, (merge_squigly_spec "+" "+").2.1, ?_, ?_⟩
  · have h0 := h.2.2.1 0 (by decide)
    simpa using h0
  · have h1 := h.2.2.2 1 (by decide)
    simpa using h1

/-- C4 counterexample: two records with the same text `"- ab"` but
conflicting specific markers at column 3, from files `f1` (inserted first,
marker `-`) and `f2` (inserted last, marker `+`).  The aggregated squigly
line keeps the FIRST-inserted file's marker `-`, not the last-inserted
`+` as the claim states: `merge_squigly` is called with the new squigly
first and the accumulated one second, and on equal lengths the second
argument is the base, whose specific markers are never overwritten. -/
theorem merge_conflict_counterexample :
    ((multidiffRun "base" ["a", "b"] [("f1", ["- ab", "?  -"]), ("f2", ["- ab", "?  +"])]
        false).toOption.map (fun md => get_line md 1))
      = some ["1 - ab (2/2)", "  ?  -", " ", "-----", " "]
    ∧ ((multidiffRun "base" ["a", "b"] [("f1", ["- ab", "?  -"]), ("f2", ["- ab", "?  +"])]
        false).toOption.map (fun md => get_line md 1))
      ≠ some ["1 - ab (2/2)", "  ?  +", " ", "-----", " "]
    ∧ merge_squigly "?  +" "?  -" = "?  -" := by decide

/-- C4 amended: when two equal-length highlight strings hold different
specific markers at the same column, the merge performed at aggregation
time (`merge_squigly new old`, the previously accumulated highlight
second) keeps the FIRST-inserted (already accumulated) highlight's marker
at that column. -/
theorem merge_conflict_amended (snew sold : String) (hlen : snew.length = sold.length)
    (i : Nat) (hi : i < sold.toList.length)
    (h1 : sold.toList.getD i SPACE ≠ HAT) (h2 : sold.toList.getD i SPACE ≠ SPACE) :
    (merge_squigly snew sold).toList.getD i SPACE = sold.toList.getD i SPACE := by
  rw [merge_squigly_toList]
  rw [if_neg (by omega : ¬ sold.length < snew.length)]
  rw [mergeChars_getD_lt sold.toList snew.toList i
        (by rw [string_length_toList, string_length_toList] at hlen; omega)
        (by rw [string_length_toList, string_length_toList] at hlen; omega)]
  rw [if_neg]
  intro hcontra
  rcases hcontra.1 with h | h
  · exact h1 h
  · exact h2 h

/-- Witness for the amended C4 at the counterexample's highlights: the
surviving marker at column 3 is the accumulated `"?  -"`'s. -/
theorem merge_conflict_amended_witness :
    (merge_squigly "?  +" "?  -").toList.getD 3 SPACE = ("?  -" : String).toList.getD 3 SPACE :=
  merge_conflict_amended "?  +" "?  -" (by decide) 3 (by decide) (by decide) (by decide)

/-! ## Padding of the squigly line (C3) -/

theorem log10fuel_eq (f : Nat) : ∀ n : Nat, 1 ≤ n → n ≤ f → log10fuel f n = Nat.log 10 n := by
  induction f with
  | zero => intro n h1 h2; omega
  | succ f ih =>
    intro n h1 h2
    rw [log10fuel]
    by_cases h : n < 10
    · rw [if_pos h, Eq.comm, Nat.log_eq_zero_iff]
      exact Or.inl h
    · have h10 : 10 ≤ n := by omega
      have hdiv1 : 1 ≤ n / 10 := (Nat.one_le_div_iff (by norm_num)).mpr h10
      have hdivf : n / 10 ≤ f := by
        have := Nat.div_lt_self (by omega : 0 < n) (by norm_num : 1 < 10)
        omega
      rw [if_neg h, ih (n / 10) hdiv1 hdivf, Nat.log_div_base]
      have hpos : 0 < Nat.log 10 n := Nat.log_pos (by norm_num) h10
      omega

/-- C3 counterexample: a group at line 1 with a non-empty merged highlight,
color mode disabled.  The highlight line is emitted left-padded by exactly
2 spaces (`2 + int(math.log10(1))`), not by `2 + digit-count(1) = 3`
spaces as the claim states. -/
theorem padding_counterexample :
    ((multidiffRun "base" ["a", "b"] [("f", ["- ab", "?  ^"])] false).toOption.map
        (fun md => get_line md 1))
      = some ["1 - ab (1/1)", "  ?  ^", " ", "-----", " "]
    ∧ ("  ?  ^" : String) ≠ String.mk (List.replicate (2 + 1) SPACE) ++ "?  ^"
    ∧ ("  ?  ^" : String) = String.mk (List.replicate 2 SPACE) ++ "?  ^" := by decide

/-- C3 amended: for a rendered group with a non-empty merged highlight and
color mode disabled, the second output line is the raw highlight
left-padded by exactly `1 + (number of decimal digits of line_no)` space
characters (that is, `2 + floor(log10 line_no)`). -/
theorem padding_amended (md : MultiDiff) (line_no : Int) (dl sq : String)
    (files : List String) (hc : md.colored = false) (hs : sq ≠ "") (hn : 1 ≤ line_no) :
    ∃ first, renderGroup md line_no dl sq files =
      [first,
       String.mk (List.replicate ((Nat.digits 10 line_no.toNat).length + 1) SPACE) ++ sq] := by
  have hn' : 1 ≤ line_no.toNat := by omega
  have hcount : 2 + intLog10 line_no = (Nat.digits 10 line_no.toNat).length + 1 := by
    rw [intLog10, log10fuel_eq _ _ hn' le_rfl,
        Nat.digits_len 10 _ (by norm_num) (by omega)]
    omega
  refine ⟨joinSep " "
      (if files.length ≠ md.files.length then
        [toString line_no ++ " " ++ colorize md dl sq,
         "(" ++ toString files.length ++ "/" ++ toString md.files.length ++ ")"]
          ++ [joinSep ", " files]
      else
        [toString line_no ++ " " ++ colorize md dl sq,
         "(" ++ toString files.length ++ "/" ++ toString md.files.length ++ ")"]), ?_⟩
  rw [← hcount]
  simp only [renderGroup]
  rw [if_pos ⟨hc, hs⟩]
  rfl

/-- Witness for the amended C3 at a concrete group: line 1, one file. -/
theorem padding_amended_witness :
    ∃ first, renderGroup ⟨"b", ["x"], ["f"], false, []⟩ 1 "- ab" "?  ^" ["f"] =
      [first,
       String.mk (List.replicate ((Nat.digits 10 (1 : Int).toNat).length + 1) SPACE) ++ "?  ^"] :=
  padding_amended ⟨"b", ["x"], ["f"], false, []⟩ 1 "- ab" "?  ^" ["f"] rfl (by decide) (by decide)

/-! ## Line truncation (C6) -/

theorem pySliceTo_nonneg (s : String) (n : Int) (hn : 0 ≤ n) :
    pySliceTo s n = ⟨s.toList.take n.toNat⟩ := by
  unfold pySliceTo
  rw [if_neg (by omega)]

/-- C6: a rendered line longer than the terminal width is cut to
`width - 3` characters, a color-reset escape is appended in color mode,
then the truncation marker is appended; without color mode the emitted
line never exceeds the width. -/
theorem limit_spec (colored : Bool) (text : String) (w : Nat) (hw : 3 ≤ w) :
    (limit false text (w : Int)).length ≤ w
    ∧ (w < text.length →
        limit colored text (w : Int) =
          String.mk (text.toList.take (w - 3)) ++ (if colored then END_COLOR else "")
            ++ END_LONG_LINE) := by
  have h3 : END_LONG_LINE.length = 3 := by decide
  have hslice : pySliceTo text ((w : Int) - (END_LONG_LINE.length : Int)) =
      ⟨text.toList.take (w - 3)⟩ := by
    rw [h3, pySliceTo_nonneg text _ (by omega)]
    have hn : ((w : Int) - ((3 : Nat) : Int)).toNat = w - 3 := by omega
    rw [hn]
  have h1 : (⟨text.toList.take (w - 3)⟩ : String).length = min (w - 3) text.length := by
    rw [string_length_toList]
    show (text.toList.take (w - 3)).length = _
    rw [List.length_take, ← string_length_toList]
  constructor
  · by_cases h : (text.length : Int) > (w : Int)
    · rw [limit, if_pos h, hslice]
      simp only [Bool.false_eq_true, if_false]
      rw [String.length_append, h1, h3]
      omega
    · rw [limit, if_neg h]
      exact_mod_cast not_lt.mp h
  · intro hlen
    rw [limit, if_pos (by omega), hslice]
    cases colored <;> simp

/-- Witness for C6 at `text = "abcdefgh"`, `w = 5`, both color modes. -/
theorem limit_spec_witness :
    (limit false "abcdefgh" ((5 : Nat) : Int)).length ≤ 5
    ∧ limit true "abcdefgh" ((5 : Nat) : Int) =
        String.mk (("abcdefgh" : String).toList.take (5 - 3)) ++ (if true then END_COLOR else "")
          ++ END_LONG_LINE :=
  ⟨(limit_spec false "abcdefgh" 5 (by decide)).1,
   (limit_spec true "abcdefgh" 5 (by decide)).2 (by decide)⟩

/-! ## Variant ordering and the cap (C7) -/

/-- C7: the variants selected for rendering are in non-decreasing
file-count order, at most `MAX_DIFF_GROUPS` (3) of them are kept (exactly
3 whenever more exist), and every kept variant's file-count is at most
every omitted variant's file-count. -/
theorem variant_selection_spec (changes : List (String × List String)) (lines : List String) :
    (selectVariants changes lines).length = min MAX_DIFF_GROUPS lines.length
    ∧ (selectVariants changes lines).Pairwise
        (fun a b => countOf changes a ≤ countOf changes b)
    ∧ (∀ x ∈ selectVariants changes lines, ∀ y ∈ lines,
        y ∉ selectVariants changes lines → countOf changes x ≤ countOf changes y) := by
  haveI hTot : IsTotal String (fun a b => countOf changes a ≤ countOf changes b) :=
    ⟨fun a b => Nat.le_total _ _⟩
  haveI hTrans : IsTrans String (fun a b => countOf changes a ≤ countOf changes b) :=
    ⟨fun a b c hab hbc => Nat.le_trans hab hbc⟩
  have hperm := List.perm_insertionSort
    (fun a b => countOf changes a ≤ countOf changes b) lines
  have hsorted := List.sorted_insertionSort
    (fun a b => countOf changes a ≤ countOf changes b) lines
  refine ⟨?_, ?_, ?_⟩
  · show (List.take MAX_DIFF_GROUPS _).length = _
    rw [List.length_take, hperm.length_eq]
  · exact List.Pairwise.sublist (List.take_sublist _ _) hsorted
  · intro x hx y hy hyn
    have hymem : y ∈ List.insertionSort (fun a b => countOf changes a ≤ countOf changes b)
        lines := hperm.mem_iff.mpr hy
    rw [← List.take_append_drop MAX_DIFF_GROUPS
        (List.insertionSort (fun a b => countOf changes a ≤ countOf changes b) lines)]
      at hymem hsorted
    have hydrop : y ∈ List.drop MAX_DIFF_GROUPS
        (List.insertionSort (fun a b => countOf changes a ≤ countOf changes b) lines) := by
      rcases List.mem_append.mp hymem with h | h
      · exact absurd h hyn
      · exact h
    exact (List.pairwise_append.mp hsorted).2.2 x hx y hydrop

/-- Witness for C7: four variants with file-counts `0, 0, 0, 2`; the three
zero-count ones are kept, the omitted one has count 2. -/
theorem variant_selection_spec_witness :
    (selectVariants [("d", ["f1", "f2"])] ["a", "b", "c", "d"]).length
        = min MAX_DIFF_GROUPS (["a", "b", "c", "d"] : List String).length
    ∧ countOf [("d", ["f1", "f2"])] "a" ≤ countOf [("d", ["f1", "f2"])] "d" := by
  have h := variant_selection_spec [("d", ["f1", "f2"])] ["a", "b", "c", "d"]
  exact ⟨h.1, h.2.2 "a" (by decide) "d" (by decide) (by decide)⟩

/-! ## File-counts count distinct files (C8) -/

theorem lookup_addChange (m : List (String × List String)) (k meta t : String) :
    (lookup? (addChange m k meta) t).getD [] =
      if k = t then insertMeta ((lookup? m t).getD []) meta else (lookup? m t).getD [] := by
  induction m with
  | nil =>
    by_cases h : k = t <;> simp [addChange, lookup?, h, insertMeta]
  | cons p rest ih =>
    obtain ⟨k', vs⟩ := p
    by_cases h1 : k' = k
    · subst h1
      by_cases h2 : k' = t
      · subst h2
        simp [addChange, lookup?]
      · simp [addChange, lookup?, h2]
    · by_cases h2 : k' = t
      · subst h2
        have hkt : ¬ k = k' := fun h => h1 h.symm
        simp [addChange, lookup?, h1, hkt]
      · simp [addChange, lookup?, h1, h2, ih]

theorem groupStep_changes (acc : GroupAcc) (e : DiffEntry) :
    (groupStep acc e).changes = addChange acc.changes e.diff_line e.meta := rfl

theorem foldl_groupStep_changes (entries : List DiffEntry) (acc : GroupAcc) (t : String) :
    (lookup? ((entries.foldl groupStep acc).changes) t).getD []
      = (entries.filter (fun e => e.diff_line = t)).foldl
          (fun l e => insertMeta l e.meta) ((lookup? acc.changes t).getD []) := by
  induction entries generalizing acc with
  | nil => rfl
  | cons e es ih =>
    rw [List.foldl_cons, ih, groupStep_changes, lookup_addChange]
    by_cases h : e.diff_line = t
    · simp [List.filter_cons, h]
    · simp [List.filter_cons, h]

theorem insertMeta_mem (l : List String) (m x : String) :
    x ∈ insertMeta l m ↔ x ∈ l ∨ x = m := by
  unfold insertMeta
  by_cases h : m ∈ l
  · rw [if_pos h]
    constructor
    · exact Or.inl
    · rintro (hx | rfl)
      · exact hx
      · exact h
  · rw [if_neg h]
    simp

theorem insertMeta_nodup (l : List String) (m : String) (h : l.Nodup) :
    (insertMeta l m).Nodup := by
  unfold insertMeta
  by_cases hm : m ∈ l
  · rwa [if_pos hm]
  · rw [if_neg hm]
    simp [List.nodup_append, h, hm]

theorem foldl_insertMeta_mem (ms : List String) (init : List String) (x : String) :
    x ∈ ms.foldl (fun l m => insertMeta l m) init ↔ x ∈ init ∨ x ∈ ms := by
  induction ms generalizing init with
  | nil => simp
  | cons m rest ih =>
    rw [List.foldl_cons, ih, insertMeta_mem]
    constructor
    · rintro ((h | rfl) | h)
      · exact Or.inl h
      · exact Or.inr (List.mem_cons_self _ _)
      · exact Or.inr (List.mem_cons_of_mem _ h)
    · rintro (h | h)
      · exact Or.inl (Or.inl h)
      · rcases List.mem_cons.mp h with rfl | h
        · exact Or.inl (Or.inr rfl)
        · exact Or.inr h

theorem foldl_insertMeta_nodup (ms : List String) (init : List String) (h : init.Nodup) :
    (ms.foldl (fun l m => insertMeta l m) init).Nodup := by
  induction ms generalizing init with
  | nil => exact h
  | cons m rest ih => exact ih _ (insertMeta_nodup _ _ h)

/-- C8: for the records of one line-and-key bucket, the rendered
file-count numerator — the size of the accumulated meta set for a given
diff-line text — equals the number of DISTINCT source files among the
records carrying that text; duplicate records from one file do not
inflate it. -/
theorem file_count_distinct (entries : List DiffEntry) (t : String) :
    ((lookup? ((entries.foldl groupStep initGroupAcc).changes) t).getD []).length
      = ((entries.filter (fun e => e.diff_line = t)).map (fun e => e.meta)).toFinset.card := by
  rw [foldl_groupStep_changes]
  have hinit : (lookup? (initGroupAcc.changes) t).getD [] = [] := rfl
  rw [hinit]
  have hmap : (entries.filter (fun e => e.diff_line = t)).foldl
      (fun l e => insertMeta l e.meta) []
      = ((entries.filter (fun e => e.diff_line = t)).map (fun e => e.meta)).foldl
          (fun l m => insertMeta l m) [] := by
    rw [List.foldl_map]
  rw [hmap]
  set ms := (entries.filter (fun e => e.diff_line = t)).map (fun e => e.meta) with hms
  have hnodup : (ms.foldl (fun l m => insertMeta l m) []).Nodup :=
    foldl_insertMeta_nodup ms [] List.nodup_nil
  have hfin : (ms.foldl (fun l m => insertMeta l m) []).toFinset = ms.toFinset := by
    apply Finset.ext
    intro a
    rw [List.mem_toFinset, List.mem_toFinset, foldl_insertMeta_mem]
    simp
  rw [← hfin, List.toFinset_card_of_nodup hnodup]

/-! ## Membership lemmas for the association-list operations -/

theorem appendAt_mem {α β : Type} [DecidableEq α] (m : List (α × List β)) (k : α) (v : β)
    (p : α × List β) (hp : p ∈ appendAt m k v) : p.1 = k ∨ ∃ q ∈ m, q.1 = p.1 := by
  induction m with
  | nil =>
    simp [appendAt] at hp
    subst hp
    exact Or.inl rfl
  | cons q0 rest ih =>
    obtain ⟨k', vs⟩ := q0
    by_cases h : k' = k
    · simp only [appendAt, if_pos h] at hp
      rcases List.mem_cons.mp hp with rfl | hp'
      · exact Or.inl h
      · exact Or.inr ⟨p, List.mem_cons_of_mem _ hp', rfl⟩
    · simp only [appendAt, if_neg h] at hp
      rcases List.mem_cons.mp hp with rfl | hp'
      · exact Or.inr ⟨(k', vs), List.mem_cons_self _ _, rfl⟩
      · rcases ih hp' with h' | ⟨q, hq, he⟩
        · exact Or.inl h'
        · exact Or.inr ⟨q, List.mem_cons_of_mem _ hq, he⟩

theorem appendAt_mem_val {α β : Type} [DecidableEq α] (m : List (α × List β)) (k : α) (v : β)
    (p : α × List β) (hp : p ∈ appendAt m k v) (x : β) (hx : x ∈ p.2) :
    x = v ∨ ∃ q ∈ m, x ∈ q.2 := by
  induction m with
  | nil =>
    simp [appendAt] at hp
    subst hp
    simp at hx
    exact Or.inl hx
  | cons q0 rest ih =>
    obtain ⟨k', vs⟩ := q0
    by_cases h : k' = k
    · simp only [appendAt, if_pos h] at hp
      rcases List.mem_cons.mp hp with rfl | hp'
      · rcases List.mem_append.mp hx with hxv | hxv
        · exact Or.inr ⟨(k', vs), List.mem_cons_self _ _, hxv⟩
        · simp at hxv
          exact Or.inl hxv
      · exact Or.inr ⟨p, List.mem_cons_of_mem _ hp', hx⟩
    · simp only [appendAt, if_neg h] at hp
      rcases List.mem_cons.mp hp with rfl | hp'
      · exact Or.inr ⟨(k', vs), List.mem_cons_self _ _, hx⟩
      · rcases ih hp' with h' | ⟨q, hq, hqx⟩
        · exact Or.inl h'
        · exact Or.inr ⟨q, List.mem_cons_of_mem _ hq, hqx⟩

/-! ## The normalizer registers only positive line numbers -/

theorem normStep_keys (filename : String) (st : FileDiff) (i : Int) (line : String)
    (hst : ∀ p ∈ st.local_diff, 1 ≤ p.1) (hoff : 1 ≤ i + st.offset) :
    ∀ p ∈ (normStep filename st i line).local_diff, 1 ≤ p.1 := by
  unfold normStep
  split_ifs with h1 h2 h3
  · exact hst
  · intro p hp
    rcases appendAt_mem _ _ _ p hp with h | ⟨q, hq, he⟩
    · omega
    · have := hst q hq
      omega
  · intro p hp
    rcases appendAt_mem _ _ _ p hp with h | ⟨q, hq, he⟩
    · omega
    · have := hst q hq
      omega
  · exact hst

theorem normStep_offset (filename : String) (st : FileDiff) (i : Int) (line : String)
    (hoff : 1 ≤ i + st.offset) :
    1 ≤ (i + 1) + (normStep filename st i line).offset := by
  unfold normStep
  split_ifs <;> (try dsimp only) <;> omega

theorem normLoop_keys (filename : String) (stream : List String) :
    ∀ (i : Int) (st : FileDiff), (∀ p ∈ st.local_diff, 1 ≤ p.1) → 1 ≤ i + st.offset →
    ∀ p ∈ (normLoop filename i st stream).local_diff, 1 ≤ p.1 := by
  induction stream with
  | nil => intro i st hst _; exact hst
  | cons line rest ih =>
    intro i st hst hoff
    exact ih (i + 1) _ (normStep_keys filename st i line hst hoff)
      (normStep_offset filename st i line hoff)

theorem normalizeFile_keys (filename : String) (stream : List String) :
    ∀ p ∈ (normalizeFile filename stream).local_diff, 1 ≤ p.1 :=
  normLoop_keys filename stream 0 initFileDiff
    (fun p hp => absurd hp (List.not_mem_nil p)) (by decide)

/-! ## Every registered line starts with a plus or a minus -/

theorem normStep_vals (filename : String) (st : FileDiff) (i : Int) (line : String)
    (hst : ∀ p ∈ st.local_diff, ∀ q ∈ p.2,
        startsWithChar q.1 PLUS = true ∨ startsWithChar q.1 MINUS = true) :
    ∀ p ∈ (normStep filename st i line).local_diff, ∀ q ∈ p.2,
        startsWithChar q.1 PLUS = true ∨ startsWithChar q.1 MINUS = true := by
  unfold normStep
  split_ifs with h1 h2 h3
  · exact hst
  · intro p hp q hq
    rcases appendAt_mem_val _ _ _ p hp q hq with rfl | ⟨q', hq', hqx⟩
    · exact Or.inl h2
    · exact hst q' hq' q hqx
  · intro p hp q hq
    rcases appendAt_mem_val _ _ _ p hp q hq with rfl | ⟨q', hq', hqx⟩
    · exact Or.inr h3
    · exact hst q' hq' q hqx
  · exact hst

theorem normLoop_vals (filename : String) (stream : List String) :
    ∀ (i : Int) (st : FileDiff),
    (∀ p ∈ st.local_diff, ∀ q ∈ p.2,
        startsWithChar q.1 PLUS = true ∨ startsWithChar q.1 MINUS = true) →
    ∀ p ∈ (normLoop filename i st stream).local_diff, ∀ q ∈ p.2,
        startsWithChar q.1 PLUS = true ∨ startsWithChar q.1 MINUS = true := by
  induction stream with
  | nil => intro i st hst; exact hst
  | cons line rest ih =>
    intro i st hst
    exact ih (i + 1) _ (normStep_vals filename st i line hst)

theorem normalizeFile_vals (filename : String) (stream : List String) :
    ∀ p ∈ (normalizeFile filename stream).local_diff, ∀ q ∈ p.2,
        startsWithChar q.1 PLUS = true ∨ startsWithChar q.1 MINUS = true :=
  normLoop_vals filename stream 0 initFileDiff
    (fun p hp => absurd hp (List.not_mem_nil p))

/-! ## `rstrip` keeps a non-whitespace first character -/

theorem dropWhile_append_last (p : Char → Bool) (l : List Char) (c : Char)
    (hc : p c = false) : ∃ l2, List.dropWhile p (l ++ [c]) = l2 ++ [c] := by
  induction l with
  | nil => exact ⟨[], by simp [List.dropWhile, hc]⟩
  | cons a as ih =>
    by_cases ha : p a = true
    · simpa [List.dropWhile_cons, ha] using ih
    · exact ⟨a :: as, by simp [List.dropWhile_cons, ha]⟩

theorem rstrip_startsWithChar (s : String) (c : Char) (hc : c.isWhitespace = false)
    (h : startsWithChar s c = true) : startsWithChar (rstrip s) c = true := by
  unfold startsWithChar at h
  cases hs : s.toList with
  | nil => rw [hs] at h; simp at h
  | cons a rest =>
    rw [hs] at h
    have ha : a = c := by simpa using h
    subst ha
    obtain ⟨l2, hl2⟩ := dropWhile_append_last Char.isWhitespace rest.reverse a hc
    have hlist : (rstrip s).toList = a :: l2.reverse := by
      show (s.toList.reverse.dropWhile Char.isWhitespace).reverse = _
      rw [hs, List.reverse_cons, hl2, List.reverse_append]
      rfl
    unfold startsWithChar
    rw [hlist]
    simp

/-! ## The exception-propagating loop -/

theorem foldE_inv {α : Type} (f : MultiDiff → α → Except String MultiDiff)
    (P : MultiDiff → Prop) (l : List α) :
    ∀ b : MultiDiff, P b →
      (∀ x ∈ l, ∀ b' r, P b' → f b' x = Except.ok r → P r) →
      ∀ r, foldE f b l = Except.ok r → P r := by
  induction l with
  | nil =>
    intro b hb _ r h
    cases h
    exact hb
  | cons x xs ih =>
    intro b hb hstep r h
    rw [foldE] at h
    cases hfx : f b x with
    | error e => rw [hfx] at h; cases h
    | ok b' =>
      rw [hfx] at h
      exact ih b' (hstep x (List.mem_cons_self _ _) b b' hb hfx)
        (fun y hy => hstep y (List.mem_cons_of_mem _ hy)) r h

theorem foldE_ok {α : Type} (f : MultiDiff → α → Except String MultiDiff) (l : List α)
    (h : ∀ x ∈ l, ∀ b, ∃ r, f b x = Except.ok r) :
    ∀ b, ∃ r, foldE f b l = Except.ok r := by
  induction l with
  | nil => intro b; exact ⟨b, rfl⟩
  | cons x xs ih =>
    intro b
    obtain ⟨r1, hr1⟩ := h x (List.mem_cons_self _ _) b
    obtain ⟨r2, hr2⟩ := ih (fun y hy => h y (List.mem_cons_of_mem _ hy)) r1
    exact ⟨r2, by rw [foldE, hr1]; exact hr2⟩

/-! ## `parse_line` and the driver pipeline -/

theorem parse_line_keys (md : MultiDiff) (line_no : Int) (dl meta sq : String)
    (r : MultiDiff) (hln : 1 ≤ line_no) (hmd : ∀ p ∈ md.diff_info, 1 ≤ p.1)
    (h : parse_line md line_no dl meta sq = Except.ok r) :
    ∀ p ∈ r.diff_info, 1 ≤ p.1 := by
  unfold parse_line at h
  split at h
  · cases h
  · split at h
    · injection h with h'
      subst h'
      intro p hp
      rcases appendAt_mem _ _ _ p hp with he | ⟨q, hq, he⟩
      · omega
      · have := hmd q hq
        omega
    · cases h

theorem parse_line_ok (md : MultiDiff) (line_no : Int) (dl meta sq : String)
    (h : startsWithChar dl PLUS = true ∨ startsWithChar dl MINUS = true) :
    ∃ r, parse_line md line_no dl meta sq = Except.ok r := by
  unfold startsWithChar at h
  unfold parse_line
  split
  · rename_i heq
    rw [heq] at h
    simp at h
  · rename_i key tail heq
    rw [heq] at h
    simp only [List.head?_cons, Option.some.injEq, decide_eq_true_eq] at h
    have hk : key = MINUS ∨ key = PLUS := by
      rcases h with h | h
      · exact Or.inr h
      · exact Or.inl h
    exact ⟨_, by rw [if_pos hk]⟩

theorem flattenLocalDiff_mem (fd : FileDiff) (t : Int × String × String) :
    t ∈ flattenLocalDiff fd ↔ ∃ p ∈ fd.local_diff, ∃ q ∈ p.2, (p.1, q.1, q.2) = t := by
  simp only [flattenLocalDiff, List.mem_flatten, List.mem_map]
  constructor
  · rintro ⟨l, ⟨p, hp, rfl⟩, ht⟩
    obtain ⟨q, hq, he⟩ := List.mem_map.mp ht
    exact ⟨p, hp, q, hq, he⟩
  · rintro ⟨p, hp, q, hq, he⟩
    exact ⟨p.2.map (fun q2 => (p.1, q2.1, q2.2)), ⟨p, hp, rfl⟩,
      List.mem_map.mpr ⟨q, hq, he⟩⟩

theorem feedFile_keys (fd : FileDiff)
    (hfd : ∀ p ∈ fd.local_diff, 1 ≤ p.1) (md r : MultiDiff)
    (hmd : ∀ p ∈ md.diff_info, 1 ≤ p.1) (h : feedFile md fd = Except.ok r) :
    ∀ p ∈ r.diff_info, 1 ≤ p.1 := by
  unfold feedFile at h
  refine foldE_inv _ (fun m => ∀ p ∈ m.diff_info, 1 ≤ p.1) _ md hmd ?_ r h
  intro x hx b' r' hb' hstep
  obtain ⟨p, hp, q, hq, he⟩ := (flattenLocalDiff_mem fd x).mp hx
  have hx1 : 1 ≤ x.1 := by
    have := hfd p hp
    rw [← he]
    exact this
  exact parse_line_keys b' x.1 _ _ _ r' hx1 hb' hstep

theorem feedFile_ok (fd : FileDiff)
    (hfd : ∀ p ∈ fd.local_diff, ∀ q ∈ p.2,
        startsWithChar q.1 PLUS = true ∨ startsWithChar q.1 MINUS = true)
    (md : MultiDiff) : ∃ r, feedFile md fd = Except.ok r := by
  unfold feedFile
  refine foldE_ok _ _ ?_ md
  intro x hx b
  obtain ⟨p, hp, q, hq, he⟩ := (flattenLocalDiff_mem fd x).mp hx
  subst he
  refine parse_line_ok b p.1 (rstrip q.1) q.2 _ ?_
  rcases hfd p hp q hq with h | h
  · exact Or.inl (rstrip_startsWithChar _ _ (by decide) h)
  · exact Or.inr (rstrip_startsWithChar _ _ (by decide) h)

theorem multidiffRun_keys (base_fn : String) (base_lines : List String)
    (fileStreams : List (String × List String)) (colored : Bool) (md : MultiDiff)
    (h : multidiffRun base_fn base_lines fileStreams colored = Except.ok md) :
    ∀ p ∈ md.diff_info, 1 ≤ p.1 := by
  unfold multidiffRun at h
  refine foldE_inv _ (fun m => ∀ p ∈ m.diff_info, 1 ≤ p.1) _ _ ?_ ?_ md h
  · intro p hp
    exact absurd hp (List.not_mem_nil p)
  · intro x _ b' r hb' hstep
    exact feedFile_keys _ (normalizeFile_keys x.1 x.2) b' r hb' hstep

theorem multidiffRun_ok (base_fn : String) (base_lines : List String)
    (fileStreams : List (String × List String)) (colored : Bool) :
    ∃ md, multidiffRun base_fn base_lines fileStreams colored = Except.ok md := by
  unfold multidiffRun
  refine foldE_ok _ _ ?_ _
  intro fs _ b
  exact feedFile_ok _ (normalizeFile_vals fs.1 fs.2) b

/-! ## `get_line` on a line with no records -/

theorem lookup_zero_none (m : List (Int × List DiffEntry)) (h : ∀ p ∈ m, 1 ≤ p.1) :
    (lookup? m 0).getD [] = [] := by
  induction m with
  | nil => rfl
  | cons p rest ih =>
    obtain ⟨k, v⟩ := p
    have h1 := h (k, v) (List.mem_cons_self _ _)
    have hk : ¬ k = 0 := by
      intro hk0
      rw [hk0] at h1
      omega
    simp only [lookup?, if_neg hk]
    exact ih (fun q hq => h q (List.mem_cons_of_mem _ hq))

theorem getLineBody_nil (md : MultiDiff) (line_no : Int)
    (h : (lookup? md.diff_info line_no).getD [] = []) : getLineBody md line_no = [] := by
  simp only [getLineBody]
  rw [h]
  rfl

theorem getLine_eq_nil (md : MultiDiff) (line_no : Int)
    (h : (lookup? md.diff_info line_no).getD [] = []) : get_line md line_no = [] := by
  simp only [get_line]
  rw [if_neg (fun hc => hc.1 h)]
  exact getLineBody_nil md line_no h

/-! ## Claim C9: the separator policy -/

/-- C9: a base line with no records produces no output (and no separator);
a line with records is followed by the horizontal rule exactly when the
next line has no records. -/
theorem separator_policy (md : MultiDiff) (line_no : Int) :
    ((lookup? md.diff_info line_no).getD [] = [] → get_line md line_no = [])
    ∧ ((lookup? md.diff_info line_no).getD [] ≠ [] →
        (lookup? md.diff_info (line_no + 1)).getD [] = [] →
        get_line md line_no =
          getLineBody md line_no ++ [" ", String.mk (List.replicate SEP_WIDTH MINUS), " "])
    ∧ ((lookup? md.diff_info (line_no + 1)).getD [] ≠ [] →
        get_line md line_no = getLineBody md line_no) := by
  refine ⟨fun h => getLine_eq_nil md line_no h, fun h1 h2 => ?_, fun h2 => ?_⟩
  · simp only [get_line]
    rw [if_pos ⟨h1, h2⟩]
  · simp only [get_line]
    rw [if_neg (fun hc => h2 hc.2)]

/-- Witness for C9: a `MultiDiff` with one record at line 1 — line 0
produces nothing, line 1 produces its body plus the separator. -/
theorem separator_policy_witness :
    get_line ⟨"b", ["a"], ["f"], false, [(1, [⟨"- x", "f", ""⟩])]⟩ 0 = []
    ∧ get_line ⟨"b", ["a"], ["f"], false, [(1, [⟨"- x", "f", ""⟩])]⟩ 1 =
        getLineBody ⟨"b", ["a"], ["f"], false, [(1, [⟨"- x", "f", ""⟩])]⟩ 1
          ++ [" ", String.mk (List.replicate SEP_WIDTH MINUS), " "] :=
  ⟨(separator_policy ⟨"b", ["a"], ["f"], false, [(1, [⟨"- x", "f", ""⟩])]⟩ 0).1 (by decide),
   (separator_policy ⟨"b", ["a"], ["f"], false, [(1, [⟨"- x", "f", ""⟩])]⟩ 1).2.1
     (by decide) (by decide)⟩

/-! ## Claim C10: registered line numbers are positive -/

/-- C10: for every differ stream, every line number the normalizer
registers a record under is at least 1, and consequently `get_line 0`
of any `MultiDiff` produced by the driver renders nothing — in
particular the padding computation `int(math.log10(line_no))` is never
evaluated at `line_no = 0` through this pipeline. -/
theorem line_numbers_positive :
    (∀ (filename : String) (stream : List String),
        ∀ p ∈ (normalizeFile filename stream).local_diff, 1 ≤ p.1)
    ∧ (∀ (base_fn : String) (base_lines : List String)
          (fileStreams : List (String × List String)) (colored : Bool) (md : MultiDiff),
        multidiffRun base_fn base_lines fileStreams colored = Except.ok md →
        get_line md 0 = []) := by
  constructor
  · exact fun filename stream => normalizeFile_keys filename stream
  · intro base_fn base_lines fileStreams colored md h
    exact getLine_eq_nil md 0
      (lookup_zero_none _ (multidiffRun_keys base_fn base_lines fileStreams colored md h))

/-- Witness for C10 at the one-record stream `["- x"]`: the record lands
at line 1 (≥ 1), and `get_line 0` of the resulting `MultiDiff` is empty. -/
theorem line_numbers_positive_witness :
    (1 : Int) ≤ (((1 : Int), [("- x", "f")]) : Int × List (String × String)).1
    ∧ get_line ⟨"b", ["a"], ["f"], false, [(1, [⟨"- x", "f", ""⟩])]⟩ 0 = [] :=
  ⟨line_numbers_positive.1 "f" ["- x"] ((1 : Int), [("- x", "f")]) (by decide),
   line_numbers_positive.2 "b" ["a"] [("f", ["- x"])] false
     ⟨"b", ["a"], ["f"], false, [(1, [⟨"- x", "f", ""⟩])]⟩ rfl⟩

/-! ## Claim C2: malformed differ lines -/

/-- C2 counterexample: a tagged line that is none of context, Removed,
Added or highlight (here `"* bogus"`) is silently skipped — the
normalizer state is the same as for the empty stream, and the whole
driver succeeds normally with an empty report rather than surfacing a
hard failure.  A highlight line with no preceding Removed/Added record
(`"? ^"` first in the stream) is silently recorded under the null
anchor, again with no failure. -/
theorem fault_silence_counterexample :
    normalizeFile "f" ["* bogus"] = normalizeFile "f" []
    ∧ (normalizeFile "f" ["? ^"]).local_diff = []
    ∧ lookup? (normalizeFile "f" ["? ^"]).squigly_dict none = some "? ^"
    ∧ (multidiffRun "base" ["a"] [("f", ["* bogus", "? ^"])] false).toOption
        = some ⟨"base", ["a"], ["f"], false, []⟩ := by decide

/-- C2 amended: the normalizer silently ignores tagged lines that start
with none of `?`, `+`, `-` (the state is unchanged), a highlight with no
preceding record is absorbed under the null anchor, and the driver never
surfaces a failure: `multidiffRun` succeeds on every input (the
`parse_line` fault branch is unreachable from it, since only `+`/`-`
lines are ever registered). -/
theorem fault_silence_amended :
    (∀ (filename : String) (st : FileDiff) (i : Int) (line : String),
        startsWithChar line QUESTIONMARK = false → startsWithChar line PLUS = false →
        startsWithChar line MINUS = false → normStep filename st i line = st)
    ∧ (∀ (base_fn : String) (base_lines : List String)
          (fileStreams : List (String × List String)) (colored : Bool),
        ∃ md, multidiffRun base_fn base_lines fileStreams colored = Except.ok md) := by
  constructor
  · intro filename st i line h1 h2 h3
    unfold normStep
    rw [if_neg (by simp [h1]), if_neg (by simp [h2]), if_neg (by simp [h3])]
  · intro base_fn base_lines fileStreams colored
    exact multidiffRun_ok base_fn base_lines fileStreams colored

/-- Witness for the amended C2: a context line leaves the state unchanged,
and the driver succeeds on a stream with a bogus tag. -/
theorem fault_silence_amended_witness :
    normStep "f" initFileDiff 0 "  ctx" = initFileDiff
    ∧ ∃ md, multidiffRun "b" ["a"] [("f", ["* z"])] false = Except.ok md :=
  ⟨fault_silence_amended.1 "f" initFileDiff 0 "  ctx" (by decide) (by decide) (by decide),
   fault_silence_amended.2 "b" ["a"] [("f", ["* z"])] false⟩

/-! ## Claim C1: where records are anchored -/

/-- C1 counterexample: for base `["a", "b", "c"]` and comparison file
`["a", "x", "c"]` (differ stream `["  a", "- x", "+ b", "  c"]`), the
0-based index 1 — where the change is anchored in the base — receives NO
records: the normalizer registers both records under 2, because its
offset starts at 1 and so produces 1-based line numbers. -/
theorem anchor_counterexample :
    ((multidiffRun "base" ["a", "b", "c"] [("file", ["  a", "- x", "+ b", "  c"])]
        false).toOption.map (fun md => get_line md 1)) = some []
    ∧ ((multidiffRun "base" ["a", "b", "c"] [("file", ["  a", "- x", "+ b", "  c"])]
        false).toOption.map (fun md => (lookup? md.diff_info 1).getD [])) = some [] := by
  decide

/-- C1 amended: each record is registered under 1 + the 0-based anchor
index (the 1-based line number of the base line): in the scenario the
records land under line number 2, whose rendering shows the Removed
record for `"x"` and the Added record for `"b"`, each with file-count
`1/1`, no filename listing, and a trailing separator. -/
theorem anchor_amended :
    (normalizeFile "file" ["  a", "- x", "+ b", "  c"]).local_diff
        = [(2, [("- x", "file"), ("+ b", "file")])]
    ∧ ((multidiffRun "base" ["a", "b", "c"] [("file", ["  a", "- x", "+ b", "  c"])]
        false).toOption.map (fun md => get_line md 2))
        = some ["2 - x (1/1)", "2 + b (1/1)", " ", "-----", " "] := by
  decide

end Multidiff
